import Mathlib

/-!
Shallow embedding of `watch_csfloat.py` (csfloat-watcher), the auction-mode
watcher: per-item reference prices via a trimmed median of buy-now listings,
time-window classification of auctions, deal detection, ranking/capping, and
the per-listing notification-stage state map.

Conventions of the embedding:
* Python floats (prices, timestamps) are modelled as `ℚ`; the claims under
  study are about branch structure and exact arithmetic on small decimals,
  not float rounding.
* A JSON field that may be absent or non-numeric is an `Option`: `none`
  covers both "key absent" and "value not a number", since every use site in
  the source guards with `isinstance(v, (int, float))`.
* Python dict state (`listing_id -> "t10"/"t5"`) is a function
  `String → Option Stage`; `dict.get` is application, `d[k] = v` is a
  pointwise update.
* `list.sort` (stable) is modelled by `List.insertionSort`, which is also
  stable, with the same key order; network fetches (`ref_price_for_item`,
  `fetch_all_auctions`) and the wall clock (`time.time()`) are explicit
  parameters of `run_once`.
-/

namespace CsfloatWatcher

/-! ### Config constants (watch_csfloat.py lines 7-26) -/

def MAX_REF_ITEMS : ℕ := 30
def MIN_SAMPLES : ℕ := 3
def PROFIT_UNDER : ℚ := 12/100
def MAX_BID_USD : ℚ := 1500
def TOP_N_GLOBAL : ℕ := 10

/-- The two notification stages, `STAGE_10M = "t10"` and `STAGE_5M = "t5"`
(lines 16-17). -/
inductive Stage where
  | t10
  | t5
deriving DecidableEq, Repr

/-! ### Data model: a fetched listing record -/

/-- The `item` sub-dict of a listing, fields the watcher reads. -/
structure Item where
  market_hash_name : Option String := none
  wear_name : Option String := none
  float_value : Option ℚ := none
deriving DecidableEq, Repr

/-- The nested `auction` sub-dict of a listing. -/
structure AuctionInfo where
  ends_at : Option ℚ := none
  current_bid : Option ℚ := none
deriving DecidableEq, Repr

/-- A fetched auction listing: exactly the keys `run_once` and its helpers
read. A `none` field is an absent (or non-numeric) JSON value. -/
structure Listing where
  id : Option String := none
  time_left : Option ℚ := none
  expires_at : Option ℚ := none
  ends_at : Option ℚ := none
  end_time : Option ℚ := none
  auction : Option AuctionInfo := none
  current_bid : Option ℚ := none
  current_price : Option ℚ := none
  price : Option ℚ := none
  item : Option Item := none
deriving DecidableEq, Repr

/-- `isinstance(v, (int, float)) and v > 0` applied to an optional field:
keep the value only when it is a number strictly greater than zero. -/
def posNum : Option ℚ → Option ℚ
  | some x => if 0 < x then some x else none
  | none => none

/-! ### `seconds_left` (lines 80-95) -/

/-- `if t > 10**12: t /= 1000.0  # ms -> s` (lines 88, 93). -/
def normTs (t : ℚ) : ℚ := if 10^12 < t then t / 1000 else t

/-- `max(0, int(t - now))` for an absolute expiry timestamp `t` (lines 89,
94). Python `int` truncates toward zero, but under the outer `max(0, ·)`
truncation and floor agree, so `max 0 ⌊t - now⌋` is exact. -/
def expirySecs (now t : ℚ) : ℕ := (max 0 ⌊normTs t - now⌋).toNat

/-- `seconds_left(L)` (lines 80-95): a direct positive `time_left` wins
(truncated with `int`, and positive, hence `⌊·⌋`); otherwise the first
positive timestamp among `expires_at`, `ends_at`, `end_time`, then the
nested `auction.ends_at`; else unresolvable (`None`). -/
def seconds_left (now : ℚ) (L : Listing) : Option ℕ :=
  match posNum L.time_left with
  | some v => some (⌊v⌋.toNat)
  | none =>
    match posNum L.expires_at <|> posNum L.ends_at <|> posNum L.end_time with
    | some t => some (expirySecs now t)
    | none =>
      match L.auction.bind (fun a => posNum a.ends_at) with
      | some t => some (expirySecs now t)
      | none => none

/-! ### `current_bid_usd` (lines 97-106) -/

/-- `v/100.0 if v > 50 else float(v)` (lines 101, 105): the heuristic that
treats raw values above 50 as integer cents and values up to 50 as
already-dollar amounts. -/
def bidConv (v : ℚ) : ℚ := if 50 < v then v / 100 else v

/-- The first positive numeric value among `current_bid`, `current_price`,
`price`, then the nested `auction.current_bid` — the scan order of
`current_bid_usd` before unit conversion. -/
def firstBidValue (L : Listing) : Option ℚ :=
  match posNum L.current_bid <|> posNum L.current_price <|> posNum L.price with
  | some v => some v
  | none => L.auction.bind (fun a => posNum a.current_bid)

/-- `current_bid_usd(L)` (lines 97-106). -/
def current_bid_usd (L : Listing) : Option ℚ :=
  (firstBidValue L).map bidConv

/-! ### `trimmed_median` (lines 108-114) -/

/-- Ascending sort of a price sample, `sorted(prices)`. -/
def sortQ (l : List ℚ) : List ℚ := l.insertionSort (· ≤ ·)

/-- `statistics.median` of a nonempty list: middle element of the ascending
sort for odd length, mean of the two middle elements for even length.
(On `[]` the Python function raises; every call site guards non-emptiness,
and the embedding returns the junk value `0` there.) -/
def listMedian (l : List ℚ) : ℚ :=
  let s := sortQ l
  if s.length % 2 = 1 then s.getD (s.length / 2) 0
  else (s.getD (s.length / 2 - 1) 0 + s.getD (s.length / 2) 0) / 2

/-- The trim count `k = max(1, int(len(prices)*0.10))` (line 112). Python's
`int(n*0.10)` equals `n / 10` in naturals for every sample size arising here
(float double rounding of `n*0.10` never crosses an integer for `n < 2^52`). -/
def trimCount (n : ℕ) : ℕ := max 1 (n / 10)

/-- `prices[k:-k]`: drop `k` from each end of an ascending sample
(empty when `2*k ≥ length`, as in Python). -/
def trimEnds (k : ℕ) (l : List ℚ) : List ℚ := (l.drop k).take (l.length - 2 * k)

/-- The sorted-and-possibly-trimmed sample that `trimmed_median` takes the
median of (lines 110-113): trim only when the sorted sample has length ≥ 6. -/
def trimmedSample (prices : List ℚ) : List ℚ :=
  if 6 ≤ (sortQ prices).length then
    trimEnds (trimCount (sortQ prices).length) (sortQ prices)
  else sortQ prices

/-- `trimmed_median(prices)` (lines 108-114): `None` below `MIN_SAMPLES`,
else the median of the sorted sample trimmed at both ends when its size
is at least 6; `None` if the remainder is empty. -/
def trimmed_median (prices : List ℚ) : Option ℚ :=
  if prices.length < MIN_SAMPLES then none
  else
    match trimmedSample prices with
    | [] => none
    | p :: rest => some (listMedian (p :: rest))

/-! ### Stage windows and candidate collection (run_once, lines 201-233) -/

/-- The stage-window classification of lines 212-217: seconds remaining in
`[0, 300]` gives `"t5"`, in `(300, 600]` gives `"t10"`, anything later is
discarded. (`seconds_left` never returns a negative, so `0 <= secs` holds.) -/
def stage_needed (secs : ℕ) : Option Stage :=
  if secs ≤ 5 * 60 then some .t5
  else if secs ≤ 10 * 60 then some .t10
  else none

/-- The per-listing stage map `state` (`listing_id -> "t10"/"t5"`). -/
def StateMap : Type := String → Option Stage

/-- `state[lid] = st` on a Python dict. -/
def setStage (m : StateMap) (lid : String) (st : Stage) : StateMap :=
  fun k => if k = lid then some st else m k

/-- The empty stage map `{}`. -/
def emptyState : StateMap := fun _ => none

/-- The tuple `(L, lid, name, secs, stage_needed, bid)` appended to
`candidates` (line 232). -/
structure Candidate where
  listing : Listing
  lid : String
  name : String
  secs : ℕ
  stage : Stage
  bid : ℚ
deriving DecidableEq, Repr

/-- The body of the pre-filter loop of `run_once` (lines 204-233) for one
fetched listing: skip on falsy id, unresolvable time, out-of-window time,
stage already recorded for this id, absent/non-positive/over-ceiling bid, or
missing item name; otherwise produce the candidate tuple. -/
def collectCandidate (now : ℚ) (state : StateMap) (L : Listing) : Option Candidate :=
  if L.id.getD "" = "" then none
  else
    match seconds_left now L with
    | none => none
    | some secs =>
      match stage_needed secs with
      | none => none
      | some st =>
        if state (L.id.getD "") = some st then none
        else
          match current_bid_usd L with
          | none => none
          | some bid =>
            if bid ≤ 0 ∨ MAX_BID_USD < bid then none
            else if (L.item.bind Item.market_hash_name).getD "" = "" then none
            else
              some ⟨L, L.id.getD "", (L.item.bind Item.market_hash_name).getD "",
                secs, st, bid⟩

/-! ### Reference-price map (run_once, lines 239-247) -/

/-- One step of `refs[name] = rp` guarded by `if rp:` (line 247): a fetched
reference is recorded only when it is truthy (non-`None` and non-zero). -/
def addRef (refFetch : String → Option ℚ) (refs : String → Option ℚ)
    (name : String) : String → Option ℚ :=
  match refFetch name with
  | some rp => if rp ≠ 0 then (fun n => if n = name then some rp else refs n) else refs
  | none => refs

/-- The `refs` dict after lines 240-247, starting from `refs = {}`.

Note on fidelity: the source builds `unique_names` by
`if name not in refs` — but `refs` is still the empty dict during that loop,
so the test always succeeds and `unique_names` is `item_names` itself,
duplicates included. The cap `unique_names[:MAX_REF_ITEMS]` is therefore
applied to the raw (possibly duplicated) name list, and `ref_price_for_item`
(here the oracle `refFetch`) is invoked once per entry of that prefix. -/
def buildRefs (refFetch : String → Option ℚ) (names : List String) :
    String → Option ℚ :=
  (names.take MAX_REF_ITEMS).foldl (addRef refFetch) (fun _ => none)

/-! ### Deal construction (run_once, lines 249-276) -/

/-- The deal dict built at lines 263-276. The embedding keeps the fields the
logic computes (`drop_pct`, `mins_left`, stage, ids, prices, wear); the
purely presentational fields (`float` text, search/stall/inspect URL strings,
built by `links_for_listing` from values already present here) are not
modelled. -/
structure Deal where
  id : String
  item : String
  wear : String
  bid : ℚ
  ref : ℚ
  drop_pct : ℚ
  mins_left : ℕ
  stage : Stage
deriving DecidableEq, Repr

/-- Lines 258-276: the record pushed onto `deals` for a candidate with
resolved reference `ref`. -/
def mkDeal (c : Candidate) (ref : ℚ) : Deal :=
  { id := c.lid
    item := c.name
    wear := (c.listing.item.bind Item.wear_name).getD "?"
    bid := c.bid
    ref := ref
    drop_pct := (ref - c.bid) / ref * 100
    mins_left := c.secs / 60
    stage := c.stage }

/-- The deal loop of lines 250-276: skip a candidate whose reference is
missing or falsy (`if not ref`), or whose bid exceeds
`target = ref * (1.0 - PROFIT_UNDER)`; otherwise emit the deal. -/
def buildDeals (refs : String → Option ℚ) (cands : List Candidate) : List Deal :=
  cands.filterMap fun c =>
    match refs c.name with
    | none => none
    | some ref =>
      if ref = 0 then none
      else if ref * (1 - PROFIT_UNDER) < c.bid then none
      else some (mkDeal c ref)

/-! ### Ranking, capping, stage marking (run_once, lines 282-292) -/

/-- The sort key order of line 283, `(d["mins_left"], -d["drop_pct"])`
ascending: sooner expiry first, then larger discount first. -/
def dealLe (a b : Deal) : Prop :=
  a.mins_left < b.mins_left ∨ (a.mins_left = b.mins_left ∧ b.drop_pct ≤ a.drop_pct)

instance : DecidableRel dealLe := fun a b => by
  unfold dealLe; infer_instance

instance : IsTrans Deal dealLe := by
  constructor
  intro a b c hab hbc
  rcases hab with h1 | ⟨h1, h2⟩ <;> rcases hbc with h3 | ⟨h3, h4⟩
  · exact Or.inl (h1.trans h3)
  · exact Or.inl (h3 ▸ h1)
  · exact Or.inl (h1 ▸ h3)
  · exact Or.inr ⟨h1.trans h3, h4.trans h2⟩

instance : IsTotal Deal dealLe := by
  constructor
  intro a b
  rcases Nat.lt_trichotomy a.mins_left b.mins_left with h | h | h
  · exact Or.inl (Or.inl h)
  · rcases le_total a.drop_pct b.drop_pct with hd | hd
    · exact Or.inr (Or.inr ⟨h.symm, hd⟩)
    · exact Or.inl (Or.inr ⟨h, hd⟩)
  · exact Or.inr (Or.inl h)

/-- `deals.sort(key=lambda d: (d["mins_left"], -d["drop_pct"]))` (line 283):
Python's stable sort, modelled by the (also stable) insertion sort over the
same key order. -/
def sortDeals (deals : List Deal) : List Deal := deals.insertionSort dealLe

/-- Lines 284-285: truncate to the global top-N cap when over it. -/
def capDeals (deals : List Deal) : List Deal :=
  if TOP_N_GLOBAL < deals.length then deals.take TOP_N_GLOBAL else deals

/-- Lines 288-289: `for d in deals: state[d["id"]] = d["stage"]`. -/
def updateStates (st : StateMap) (deals : List Deal) : StateMap :=
  deals.foldl (fun s d => setStage s d.id d.stage) st

/-- Result of one pass: the stage map as it stands when the pass ends (what
`save_state` is called on, or the untouched input map on an early return)
and the deal list handed to `send_embeds` (empty on an early return). -/
structure RunResult where
  state : StateMap
  notified : List Deal

/-- The `candidates` list after the pre-filter loop (lines 202-233). -/
def candsOf (now : ℚ) (state0 : StateMap) (auctions : List Listing) :
    List Candidate :=
  auctions.filterMap (collectCandidate now state0)

/-- The `deals` list after the deal loop (lines 249-276): deals built from
the candidates against the reference map of lines 239-247. -/
def dealsOf (now : ℚ) (state0 : StateMap) (auctions : List Listing)
    (refFetch : String → Option ℚ) : List Deal :=
  buildDeals (buildRefs refFetch ((candsOf now state0 auctions).map Candidate.name))
    (candsOf now state0 auctions)

/-- The ranked-and-capped deal list of lines 282-285. -/
def keptOf (now : ℚ) (state0 : StateMap) (auctions : List Listing)
    (refFetch : String → Option ℚ) : List Deal :=
  capDeals (sortDeals (dealsOf now state0 auctions refFetch))

/-- `run_once()` (lines 194-292) as a function of its effectful inputs: the
wall clock `now`, the loaded stage map, the fetched auction list, and the
reference-price oracle `refFetch` standing for `ref_price_for_item`. The
three early returns (no auctions, line 197; no candidates, line 235; no
deals, line 278) notify nothing and leave the state untouched. -/
def run_once (now : ℚ) (state0 : StateMap) (auctions : List Listing)
    (refFetch : String → Option ℚ) : RunResult :=
  if auctions = [] then ⟨state0, []⟩
  else if candsOf now state0 auctions = [] then ⟨state0, []⟩
  else if dealsOf now state0 auctions refFetch = [] then ⟨state0, []⟩
  else
    ⟨updateStates state0 (keptOf now state0 auctions refFetch),
      keptOf now state0 auctions refFetch⟩

/-! ### Persistence (lines 44-58) and a full pass around it -/

/-- Outcome of trying to read the state file: absent, unreadable, or a
content whose JSON parse yields a stage map (`none` for malformed JSON). -/
inductive ReadOutcome where
  | missing
  | readError
  | content (parsed : Option StateMap)

/-- `load_state()` (lines 44-51): any of missing file, read error, or a JSON
parse error falls into the bare `return {}`. -/
def load_state : ReadOutcome → StateMap
  | .missing => emptyState
  | .readError => emptyState
  | .content none => emptyState
  | .content (some m) => m

/-- Whether writing the state file succeeds this time. -/
inductive WriteOutcome where
  | ok
  | writeError
deriving DecidableEq, Repr

/-- The raw file write inside `save_state`, which may raise. -/
def attemptWrite : WriteOutcome → Except String Unit
  | .ok => .ok ()
  | .writeError => .error "write failed"

/-- `save_state(d)` (lines 53-58): the bare `except: pass` swallows any
write failure, so the call never raises. -/
def save_state (_d : StateMap) (w : WriteOutcome) : Except String Unit :=
  match attemptWrite w with
  | .ok u => .ok u
  | .error _ => .ok ()

/-- One full pass including persistence: load (line 195), run, save
(line 290). Returns the pass result together with the outcome `save_state`
surfaces to `run_once`. -/
def run_pass (now : ℚ) (r : ReadOutcome) (w : WriteOutcome)
    (auctions : List Listing) (refFetch : String → Option ℚ) :
    RunResult × Except String Unit :=
  let res := run_once now (load_state r) auctions refFetch
  (res, save_state res.state w)

/-- A sequence of passes (the `while True` loop of `main`, state threaded
through the file): each pass sees its own clock value and fetched list. -/
def run_passes (st : StateMap) :
    List (ℚ × List Listing × (String → Option ℚ)) → StateMap
  | [] => st
  | (now, auctions, refFetch) :: rest =>
    run_passes (run_once now st auctions refFetch).state rest

/-! ### Spec-side definition for the reference-lookup cap (claim about §4.3
step 6: "the first N distinct item names encountered that pass") -/

/-- One step of collecting distinct names in encounter order. -/
def distinctStep (acc : List String) (a : String) : List String :=
  if a ∈ acc then acc else acc ++ [a]

/-- The distinct item names of a pass in encounter order (first occurrence
order). This is the spec's notion of "distinct item names encountered that
pass"; the theorems relate the source's capped lookup list to its prefix. -/
def distinctInOrder (l : List String) : List String := l.foldl distinctStep []

/-! ### Concrete inputs used by examples and counterexamples -/

/-- An auction listing 290 seconds from expiry with an $80.00 bid
(raw `current_bid` 8000 cents). -/
def exListing : Listing :=
  { id := some "X"
    time_left := some 290
    current_bid := some 8000
    item := some { market_hash_name := some "AK", wear_name := some "FT" } }

/-- The same auction observed with 400 seconds remaining (t10 window). -/
def exListing400 : Listing :=
  { id := some "X"
    time_left := some 400
    current_bid := some 8000
    item := some { market_hash_name := some "AK", wear_name := some "FT" } }

/-- A reference-price oracle: item "AK" has reference $100. -/
def exOracle : String → Option ℚ := fun n => if n = "AK" then some 100 else none

/-- The candidate tuple `collectCandidate` produces for `exListing` against
an empty state at time 0. -/
def exCand : Candidate := ⟨exListing, "X", "AK", 290, Stage.t5, 80⟩

/-- The candidate tuple for `exListing400`. -/
def exCand400 : Candidate := ⟨exListing400, "X", "AK", 400, Stage.t10, 80⟩

/-- The deal built from `exCand` at reference $100: 20% drop, 4 minutes. -/
def exDeal : Deal := ⟨"X", "AK", "FT", 80, 100, 20, 4, Stage.t5⟩

/-- The deal built from `exCand400` at reference $100 (stage t10). -/
def exDeal400 : Deal := ⟨"X", "AK", "FT", 80, 100, 20, 6, Stage.t10⟩

/-- A listing whose bid field holds the small positive number 40. -/
def smallBidListing : Listing := { id := some "S", current_bid := some 40 }

/-- A listing carrying no time information in any supported representation. -/
def noTimeListing : Listing :=
  { id := some "N"
    current_bid := some 8000
    item := some { market_hash_name := some "AK" } }

/-- A listing 700 seconds from expiry — outside both stage windows. -/
def lateListing : Listing :=
  { id := some "L"
    time_left := some 700
    current_bid := some 8000
    item := some { market_hash_name := some "AK" } }

/-- Synthetic deals for the ranking example: (minutes, drop%) of (5,10),
(2,30) and (2,20). -/
def rankDealA : Deal := ⟨"a", "A", "?", 0, 0, 10, 5, Stage.t5⟩

def rankDealB : Deal := ⟨"b", "B", "?", 0, 0, 30, 2, Stage.t5⟩

def rankDealC : Deal := ⟨"c", "C", "?", 0, 0, 20, 2, Stage.t5⟩

/-! ## Helper lemmas -/

theorem collectCandidate_inv {now : ℚ} {st : StateMap} {L : Listing} {c : Candidate}
    (h : collectCandidate now st L = some c) :
    c.listing = L ∧ c.lid = L.id.getD "" ∧ c.lid ≠ "" ∧
    seconds_left now L = some c.secs ∧ stage_needed c.secs = some c.stage ∧
    st c.lid ≠ some c.stage ∧ current_bid_usd L = some c.bid ∧
    ¬(c.bid ≤ 0 ∨ MAX_BID_USD < c.bid) ∧
    c.name = (L.item.bind Item.market_hash_name).getD "" ∧ c.name ≠ "" := by
  unfold collectCandidate at h
  split at h
  · exact absurd h (by simp)
  · split at h
    · exact absurd h (by simp)
    · split at h
      · exact absurd h (by simp)
      · split at h
        · exact absurd h (by simp)
        · split at h
          · exact absurd h (by simp)
          · split at h
            · exact absurd h (by simp)
            · split at h
              · exact absurd h (by simp)
              · cases h
                simp_all

theorem stage_needed_inv {secs : ℕ} {st : Stage} (h : stage_needed secs = some st) :
    (st = .t5 ∧ secs ≤ 300) ∨ (st = .t10 ∧ 300 < secs ∧ secs ≤ 600) := by
  unfold stage_needed at h
  split at h
  · cases h; exact Or.inl ⟨rfl, by omega⟩
  · split at h
    · cases h; exact Or.inr ⟨rfl, by omega, by omega⟩
    · cases h

theorem collectCandidate_dedup {now : ℚ} {st : StateMap} {L : Listing}
    {secs : ℕ} {s : Stage}
    (h1 : seconds_left now L = some secs) (h2 : stage_needed secs = some s)
    (h3 : st (L.id.getD "") = some s) :
    collectCandidate now st L = none := by
  unfold collectCandidate
  split
  · rfl
  · simp [h1, h2, h3]

theorem buildDeals_mem {refs : String → Option ℚ} {cands : List Candidate}
    {d : Deal} (h : d ∈ buildDeals refs cands) :
    ∃ c ∈ cands, ∃ r, refs c.name = some r ∧ r ≠ 0 ∧
      c.bid ≤ r * (1 - PROFIT_UNDER) ∧ d = mkDeal c r := by
  unfold buildDeals at h
  obtain ⟨c, hc, hsome⟩ := List.mem_filterMap.1 h
  refine ⟨c, hc, ?_⟩
  split at hsome
  · cases hsome
  · rename_i r hr
    split at hsome
    · cases hsome
    · rename_i hr0
      split at hsome
      · cases hsome
      · rename_i hle
        cases hsome
        exact ⟨r, hr, hr0, not_lt.1 hle, rfl⟩

theorem mem_sortDeals {d : Deal} {l : List Deal} :
    d ∈ sortDeals l ↔ d ∈ l :=
  (List.perm_insertionSort dealLe l).mem_iff

theorem mem_capDeals {d : Deal} {l : List Deal} (h : d ∈ capDeals l) : d ∈ l := by
  unfold capDeals at h
  split at h
  · exact List.mem_of_mem_take h
  · exact h

theorem mem_keptOf {now : ℚ} {st : StateMap} {auctions : List Listing}
    {f : String → Option ℚ} {d : Deal} (h : d ∈ keptOf now st auctions f) :
    d ∈ dealsOf now st auctions f :=
  mem_sortDeals.1 (mem_capDeals h)

theorem run_once_cases (now : ℚ) (st : StateMap) (auctions : List Listing)
    (f : String → Option ℚ) :
    ((run_once now st auctions f).notified = [] ∧
      (run_once now st auctions f).state = st) ∨
    ((run_once now st auctions f).notified = keptOf now st auctions f ∧
      (run_once now st auctions f).state =
        updateStates st (keptOf now st auctions f)) := by
  unfold run_once
  split_ifs <;> simp

theorem updateStates_cons (st : StateMap) (d : Deal) (ds : List Deal) :
    updateStates st (d :: ds) = updateStates (setStage st d.id d.stage) ds := rfl

theorem updateStates_lookup {k : String} :
    ∀ (deals : List Deal) (st : StateMap),
    updateStates st deals k = st k ∨
    ∃ d ∈ deals, d.id = k ∧ updateStates st deals k = some d.stage := by
  intro deals
  induction deals with
  | nil => exact fun st => Or.inl rfl
  | cons d ds ih =>
    intro st
    rw [updateStates_cons]
    rcases ih (setStage st d.id d.stage) with h | ⟨d', hd', hid, hval⟩
    · by_cases hk : k = d.id
      · subst hk
        refine Or.inr ⟨d, List.mem_cons_self d ds, rfl, ?_⟩
        rw [h]; unfold setStage; simp
      · left
        rw [h]; unfold setStage; simp [hk]
    · exact Or.inr ⟨d', List.mem_cons_of_mem d hd', hid, hval⟩

theorem updateStates_isSome_mono {k : String} :
    ∀ (deals : List Deal) (st : StateMap), (st k).isSome →
      (updateStates st deals k).isSome := by
  intro deals
  induction deals with
  | nil => exact fun _ h => h
  | cons d ds ih =>
    intro st h
    rw [updateStates_cons]
    apply ih
    unfold setStage
    by_cases hk : k = d.id <;> simp [hk, h]

theorem updateStates_isSome_of_mem {k : String} {deals : List Deal} {st : StateMap}
    (h : ∃ d ∈ deals, d.id = k) : (updateStates st deals k).isSome := by
  induction deals generalizing st with
  | nil => exact absurd h (by simp)
  | cons d ds ih =>
    rw [updateStates_cons]
    obtain ⟨d', hd', hk⟩ := h
    rcases List.mem_cons.1 hd' with rfl | hmem
    · exact updateStates_isSome_mono ds _ (by unfold setStage; simp [hk.symm])
    · exact ih ⟨d', hmem, hk⟩

theorem updateStates_of_absent {k : String} :
    ∀ (deals : List Deal) (st : StateMap), (∀ d ∈ deals, d.id ≠ k) →
      updateStates st deals k = st k := by
  intro deals
  induction deals with
  | nil => exact fun _ _ => rfl
  | cons d ds ih =>
    intro st h
    rw [updateStates_cons, ih _ (fun d' hd' => h d' (List.mem_cons_of_mem d hd'))]
    unfold setStage
    exact if_neg (fun hk => h d (List.mem_cons_self d ds) hk.symm)

theorem updateStates_nodup {deals : List Deal} {st : StateMap} {d : Deal}
    (hnd : (deals.map Deal.id).Nodup) (hd : d ∈ deals) :
    updateStates st deals d.id = some d.stage := by
  induction deals generalizing st with
  | nil => cases hd
  | cons d0 ds ih =>
    rw [updateStates_cons]
    rcases List.mem_cons.1 hd with rfl | hmem
    · rw [updateStates_of_absent ds _ ?_]
      · unfold setStage; simp
      · intro d' hd' heq
        have hmap : d.id ∈ ds.map Deal.id := heq ▸ List.mem_map_of_mem Deal.id hd'
        exact (List.nodup_cons.1 hnd).1 hmap
    · exact ih (List.nodup_cons.1 hnd).2 hmem

theorem foldl_addRef_lookup (f : String → Option ℚ) :
    ∀ (names : List String) (init : String → Option ℚ) (n : String),
    (names.foldl (addRef f) init) n = init n ∨
    (n ∈ names ∧ ∃ r, f n = some r ∧ r ≠ 0 ∧
      (names.foldl (addRef f) init) n = some r) := by
  intro names
  induction names with
  | nil => exact fun init n => Or.inl rfl
  | cons a l ih =>
    intro init n
    rw [List.foldl_cons]
    rcases ih (addRef f init a) n with h | ⟨hm, r, hf, hr0, hres⟩
    · cases hfa : f a with
      | none =>
        left; rw [h]; unfold addRef; rw [hfa]
      | some rp =>
        by_cases hrp0 : rp = 0
        · left; rw [h]; unfold addRef; rw [hfa]; simp [hrp0]
        · by_cases hn : n = a
          · subst hn
            refine Or.inr ⟨List.mem_cons_self n l, rp, hfa, hrp0, ?_⟩
            rw [h]; unfold addRef; rw [hfa]; simp [hrp0]
          · left; rw [h]; unfold addRef; rw [hfa]; simp [hrp0, hn]
    · exact Or.inr ⟨List.mem_cons_of_mem a hm, r, hf, hr0, hres⟩

theorem buildRefs_lookup {f : String → Option ℚ} {names : List String}
    {n : String} {r : ℚ} (h : buildRefs f names n = some r) :
    n ∈ names.take MAX_REF_ITEMS ∧ f n = some r ∧ r ≠ 0 := by
  unfold buildRefs at h
  rcases foldl_addRef_lookup f (names.take MAX_REF_ITEMS) (fun _ => none) n with
    h0 | ⟨hm, r', hf, hr0, hres⟩
  · rw [h] at h0; cases h0
  · rw [h] at hres
    cases hres
    exact ⟨hm, hf, hr0⟩

theorem distinctStep_isPre (acc : List String) (a : String) :
    acc <+: distinctStep acc a := by
  unfold distinctStep
  split
  · exact List.prefix_rfl
  · exact ⟨[a], rfl⟩

theorem foldl_distinct_isPre :
    ∀ (l : List String) (acc : List String), acc <+: l.foldl distinctStep acc := by
  intro l
  induction l with
  | nil => exact fun acc => List.prefix_rfl
  | cons a t ih =>
    intro acc
    rw [List.foldl_cons]
    exact (distinctStep_isPre acc a).trans (ih (distinctStep acc a))

theorem foldl_distinct_length :
    ∀ (l : List String) (acc : List String),
      (l.foldl distinctStep acc).length ≤ acc.length + l.length := by
  intro l
  induction l with
  | nil => simp
  | cons a t ih =>
    intro acc
    rw [List.foldl_cons]
    refine (ih (distinctStep acc a)).trans ?_
    unfold distinctStep
    split
    · simp
    · simp
      omega

theorem mem_foldl_distinct :
    ∀ (l : List String) (acc : List String) (x : String),
      (x ∈ acc ∨ x ∈ l) → x ∈ l.foldl distinctStep acc := by
  intro l
  induction l with
  | nil => intro acc x h; simpa using h
  | cons a t ih =>
    intro acc x h
    rw [List.foldl_cons]
    apply ih
    unfold distinctStep
    rcases h with h | h
    · left; split <;> simp [h]
    · rcases List.mem_cons.1 h with rfl | h
      · left; split
        · assumption
        · simp
      · right; exact h

/-- A name occurring among the first `k` entries of the raw name list is
among the first `k` distinct names in encounter order. -/
theorem mem_take_distinctInOrder {l : List String} {k : ℕ} {x : String}
    (h : x ∈ l.take k) : x ∈ (distinctInOrder l).take k := by
  have hsplit : distinctInOrder l =
      (l.drop k).foldl distinctStep (distinctInOrder (l.take k)) := by
    unfold distinctInOrder
    rw [← List.foldl_append, List.take_append_drop]
  have hpre : distinctInOrder (l.take k) <+: distinctInOrder l := by
    rw [hsplit]; exact foldl_distinct_isPre _ _
  have hlen : (distinctInOrder (l.take k)).length ≤ k := by
    have h1 := foldl_distinct_length (l.take k) []
    have h2 := List.length_take_le k l
    simp only [List.length_nil, Nat.zero_add] at h1
    unfold distinctInOrder
    omega
  have hx : x ∈ distinctInOrder (l.take k) := mem_foldl_distinct _ [] x (Or.inr h)
  obtain ⟨t, ht⟩ := hpre
  rw [← ht, List.take_append_eq_append_take,
    List.take_of_length_le hlen]
  exact List.mem_append_left _ hx

theorem sortDeals_sorted (l : List Deal) : List.Sorted dealLe (sortDeals l) :=
  List.sorted_insertionSort dealLe l

theorem capDeals_sorted {l : List Deal} (h : List.Sorted dealLe l) :
    List.Sorted dealLe (capDeals l) := by
  unfold capDeals
  split
  · exact h.sublist (List.take_sublist _ _)
  · exact h

theorem capDeals_length (l : List Deal) : (capDeals l).length ≤ TOP_N_GLOBAL := by
  unfold capDeals
  split
  · simp
  · omega

/-! ### Concrete-input evaluation lemmas -/

theorem run_once_eq_of (now : ℚ) (st : StateMap) (auctions : List Listing)
    (refFetch : String → Option ℚ) (cands : List Candidate) (deals : List Deal)
    (hA : auctions ≠ [])
    (hC : candsOf now st auctions = cands) (hc : cands ≠ [])
    (hD : buildDeals (buildRefs refFetch (cands.map Candidate.name)) cands = deals)
    (hd : deals ≠ []) :
    run_once now st auctions refFetch =
      ⟨updateStates st (capDeals (sortDeals deals)), capDeals (sortDeals deals)⟩ := by
  unfold run_once keptOf dealsOf
  rw [if_neg hA, hC, hD, if_neg hc, if_neg hd]

theorem bid_exListing : current_bid_usd exListing = some 80 := by
  norm_num [current_bid_usd, firstBidValue, posNum, bidConv, exListing]

theorem bid_exListing400 : current_bid_usd exListing400 = some 80 := by
  norm_num [current_bid_usd, firstBidValue, posNum, bidConv, exListing400]

theorem collect_exListing :
    collectCandidate 0 emptyState exListing = some exCand := by
  have h1 : seconds_left 0 exListing = some 290 := by decide
  simp only [collectCandidate, h1, bid_exListing]
  norm_num [exListing, stage_needed, emptyState, MAX_BID_USD, exCand]
  decide

theorem st1_val : ∀ k, updateStates emptyState [exDeal] k =
    if k = "X" then some Stage.t5 else none := by
  intro k
  simp [updateStates, setStage, exDeal, emptyState]

theorem collect_exListing400 :
    collectCandidate 0 (updateStates emptyState [exDeal]) exListing400 =
      some exCand400 := by
  have h1 : seconds_left 0 exListing400 = some 400 := by decide
  have h3 : updateStates emptyState [exDeal] "X" = some Stage.t5 := by
    rw [st1_val]; simp
  simp only [collectCandidate, h1, bid_exListing400]
  norm_num [exListing400, stage_needed, h3, MAX_BID_USD, exCand400]
  decide

theorem refs_exOracle_single : buildRefs exOracle ["AK"] "AK" = some 100 := by
  simp [buildRefs, addRef, exOracle, MAX_REF_ITEMS]

theorem refs_exOracle_double : buildRefs exOracle ["AK", "AK"] "AK" = some 100 := by
  simp [buildRefs, addRef, exOracle, MAX_REF_ITEMS]

theorem deals_exCand :
    buildDeals (buildRefs exOracle ([exCand].map Candidate.name)) [exCand] =
      [exDeal] := by
  simp only [List.map_cons, List.map_nil, exCand, buildDeals,
    List.filterMap_cons, List.filterMap_nil]
  rw [refs_exOracle_single]
  norm_num [mkDeal, exDeal, exListing, PROFIT_UNDER]

theorem run1 :
    run_once 0 emptyState [exListing] exOracle =
      ⟨updateStates emptyState [exDeal], [exDeal]⟩ := by
  have hC : candsOf 0 emptyState [exListing] = [exCand] := by
    simp [candsOf, List.filterMap_cons, collect_exListing]
  rw [run_once_eq_of 0 emptyState [exListing] exOracle [exCand] [exDeal]
    (by simp) hC (by simp) (by simpa using deals_exCand) (by simp)]
  have h1 : sortDeals [exDeal] = [exDeal] := by
    simp [sortDeals, List.insertionSort]
  have h2 : capDeals [exDeal] = [exDeal] := by
    simp [capDeals, TOP_N_GLOBAL]
  rw [h1, h2]

theorem deals_exCand400 :
    buildDeals (buildRefs exOracle ([exCand400].map Candidate.name)) [exCand400] =
      [exDeal400] := by
  simp only [List.map_cons, List.map_nil, exCand400, buildDeals,
    List.filterMap_cons, List.filterMap_nil]
  rw [refs_exOracle_single]
  norm_num [mkDeal, exDeal400, exListing400, PROFIT_UNDER]

theorem run2 :
    run_once 0 (updateStates emptyState [exDeal]) [exListing400] exOracle =
      ⟨updateStates (updateStates emptyState [exDeal]) [exDeal400],
        [exDeal400]⟩ := by
  have hC : candsOf 0 (updateStates emptyState [exDeal]) [exListing400] =
      [exCand400] := by
    simp [candsOf, List.filterMap_cons, collect_exListing400]
  rw [run_once_eq_of 0 _ [exListing400] exOracle [exCand400] [exDeal400]
    (by simp) hC (by simp) (by simpa using deals_exCand400) (by simp)]
  have h1 : sortDeals [exDeal400] = [exDeal400] := by
    simp [sortDeals, List.insertionSort]
  have h2 : capDeals [exDeal400] = [exDeal400] := by
    simp [capDeals, TOP_N_GLOBAL]
  rw [h1, h2]

theorem deals_exCand_dup :
    buildDeals (buildRefs exOracle ([exCand, exCand].map Candidate.name))
      [exCand, exCand] = [exDeal, exDeal] := by
  simp only [List.map_cons, List.map_nil, exCand, buildDeals,
    List.filterMap_cons, List.filterMap_nil]
  rw [refs_exOracle_double]
  norm_num [mkDeal, exDeal, exListing, PROFIT_UNDER]

theorem run_dup :
    run_once 0 emptyState [exListing, exListing] exOracle =
      ⟨updateStates emptyState [exDeal, exDeal], [exDeal, exDeal]⟩ := by
  have hC : candsOf 0 emptyState [exListing, exListing] = [exCand, exCand] := by
    simp [candsOf, List.filterMap_cons, collect_exListing]
  rw [run_once_eq_of 0 emptyState [exListing, exListing] exOracle
    [exCand, exCand] [exDeal, exDeal]
    (by simp) hC (by simp) (by simpa using deals_exCand_dup) (by simp)]
  have h1 : sortDeals [exDeal, exDeal] = [exDeal, exDeal] := by
    simp [sortDeals, List.insertionSort, List.orderedInsert, dealLe]
  have h2 : capDeals [exDeal, exDeal] = [exDeal, exDeal] := by
    simp [capDeals, TOP_N_GLOBAL]
  rw [h1, h2]

/-! ### Provenance of notified deals and stage-map evolution -/

theorem mkDeal_id (c : Candidate) (r : ℚ) : (mkDeal c r).id = c.lid := rfl

theorem mkDeal_stage (c : Candidate) (r : ℚ) : (mkDeal c r).stage = c.stage := rfl

theorem mkDeal_item (c : Candidate) (r : ℚ) : (mkDeal c r).item = c.name := rfl

theorem mkDeal_ref (c : Candidate) (r : ℚ) : (mkDeal c r).ref = r := rfl

/-- Every deal handed to the notifier comes from a candidate that survived
the filters, priced by the reference map. -/
theorem notified_mem_inv {now : ℚ} {st : StateMap} {auctions : List Listing}
    {f : String → Option ℚ} {d : Deal}
    (h : d ∈ (run_once now st auctions f).notified) :
    ∃ c ∈ candsOf now st auctions, ∃ r,
      buildRefs f ((candsOf now st auctions).map Candidate.name) c.name = some r ∧
      r ≠ 0 ∧ c.bid ≤ r * (1 - PROFIT_UNDER) ∧ d = mkDeal c r := by
  rcases run_once_cases now st auctions f with ⟨hn, _⟩ | ⟨hn, _⟩
  · rw [hn] at h; cases h
  · rw [hn] at h
    exact buildDeals_mem (mem_keptOf h)

/-- Every candidate comes from a fetched listing via `collectCandidate`. -/
theorem candsOf_mem_inv {now : ℚ} {st : StateMap} {auctions : List Listing}
    {c : Candidate} (h : c ∈ candsOf now st auctions) :
    ∃ L ∈ auctions, collectCandidate now st L = some c :=
  List.mem_filterMap.1 h

/-- If a pass rewrites the recorded stage of `lid` from t5 to t10, the pass
observed a listing with that id whose computed time fell in the t10 window. -/
theorem downgrade_needs_t10_window {now : ℚ} {st : StateMap}
    {auctions : List Listing} {f : String → Option ℚ} {lid : String}
    (h5 : st lid = some Stage.t5)
    (h10 : (run_once now st auctions f).state lid = some Stage.t10) :
    ∃ L ∈ auctions, L.id.getD "" = lid ∧
      ∃ secs, seconds_left now L = some secs ∧ 300 < secs ∧ secs ≤ 600 := by
  rcases run_once_cases now st auctions f with ⟨_, hst⟩ | ⟨hn, hst⟩
  · rw [hst, h5] at h10; cases h10
  · rw [hst] at h10
    rcases @updateStates_lookup lid (keptOf now st auctions f) st with
      h | ⟨d, hd, hid, hval⟩
    · rw [h, h5] at h10; cases h10
    · rw [hval] at h10
      have hds : d.stage = Stage.t10 := Option.some.inj h10
      obtain ⟨c, hc, r, _, _, _, hdm⟩ := buildDeals_mem (mem_keptOf hd)
      obtain ⟨L, hL, hcol⟩ := candsOf_mem_inv hc
      obtain ⟨_, hlid, _, hsec, hstage, _⟩ := collectCandidate_inv hcol
      have hcstage : c.stage = Stage.t10 := by rw [hdm, mkDeal_stage] at hds; exact hds
      rcases stage_needed_inv hstage with ⟨hbad, _⟩ | ⟨_, hwin⟩
      · rw [hcstage] at hbad; cases hbad
      · refine ⟨L, hL, ?_, c.secs, hsec, hwin⟩
        rw [← hlid, ← hid, hdm, mkDeal_id]

/-- If a pass never observes `lid` in the t10 window, a recorded t5 stage
survives the pass. -/
theorem t5_survives_pass {now : ℚ} {st : StateMap} {auctions : List Listing}
    {f : String → Option ℚ} {lid : String}
    (h5 : st lid = some Stage.t5)
    (hobs : ∀ L ∈ auctions, L.id.getD "" = lid →
      ∀ secs, seconds_left now L = some secs → ¬(300 < secs ∧ secs ≤ 600)) :
    (run_once now st auctions f).state lid = some Stage.t5 := by
  rcases run_once_cases now st auctions f with ⟨_, hst⟩ | ⟨hn, hst⟩
  · rw [hst]; exact h5
  · rw [hst]
    rcases @updateStates_lookup lid (keptOf now st auctions f) st with
      h | ⟨d, hd, hid, hval⟩
    · rw [h]; exact h5
    · rw [hval]
      obtain ⟨c, hc, r, _, _, _, hdm⟩ := buildDeals_mem (mem_keptOf hd)
      obtain ⟨L, hL, hcol⟩ := candsOf_mem_inv hc
      obtain ⟨_, hlid, _, hsec, hstage, _⟩ := collectCandidate_inv hcol
      have hds : d.stage = c.stage := by rw [hdm, mkDeal_stage]
      cases hcs : c.stage with
      | t5 => rw [hds, hcs]
      | t10 =>
        rcases stage_needed_inv hstage with ⟨hbad, _⟩ | ⟨_, hwin⟩
        · rw [hcs] at hbad; cases hbad
        · exfalso
          have hidL : L.id.getD "" = lid := by
            rw [← hlid, ← hid, hdm, mkDeal_id]
          exact hobs L hL hidL c.secs hsec hwin

/-- A t5 stage survives any sequence of passes in which the id is never
observed in the t10 window. -/
theorem t5_survives_passes {lid : String} :
    ∀ (passes : List (ℚ × List Listing × (String → Option ℚ))) (st : StateMap),
    st lid = some Stage.t5 →
    (∀ p ∈ passes, ∀ L ∈ p.2.1, L.id.getD "" = lid →
      ∀ secs, seconds_left p.1 L = some secs → ¬(300 < secs ∧ secs ≤ 600)) →
    run_passes st passes lid = some Stage.t5 := by
  intro passes
  induction passes with
  | nil => exact fun st h _ => h
  | cons p rest ih =>
    intro st h5 hobs
    obtain ⟨now, auctions, f⟩ := p
    unfold run_passes
    refine ih _ (t5_survives_pass h5 ?_) ?_
    · exact fun L hL hid secs hsec => hobs (now, auctions, f)
        (List.mem_cons_self _ _) L hL hid secs hsec
    · exact fun q hq => hobs q (List.mem_cons_of_mem _ hq)

/-! ### Facts about `trimmed_median` -/

theorem length_sortQ (l : List ℚ) : (sortQ l).length = l.length :=
  (List.perm_insertionSort _ l).length_eq

theorem sortQ_idem (l : List ℚ) : sortQ (sortQ l) = sortQ l :=
  (List.sorted_insertionSort _ l).insertionSort_eq

theorem listMedian_sortQ (l : List ℚ) : listMedian (sortQ l) = listMedian l := by
  unfold listMedian
  rw [sortQ_idem]

theorem length_trimEnds (k : ℕ) (l : List ℚ) :
    (trimEnds k l).length = l.length - 2 * k := by
  simp [trimEnds]
  omega

theorem trimmedSample_length (prices : List ℚ) :
    (trimmedSample prices).length =
      if 6 ≤ prices.length then prices.length - 2 * trimCount prices.length
      else prices.length := by
  unfold trimmedSample
  rw [length_sortQ]
  split
  · rw [length_trimEnds, length_sortQ]
  · rw [length_sortQ]

theorem trimmedSample_ne_nil {prices : List ℚ} (h : 1 ≤ prices.length) :
    trimmedSample prices ≠ [] := by
  have hl := trimmedSample_length prices
  intro hnil
  rw [hnil] at hl
  simp only [List.length_nil] at hl
  unfold trimCount at hl
  split at hl <;> omega

theorem trimmed_median_eq_of_ge {prices : List ℚ}
    (h : MIN_SAMPLES ≤ prices.length) :
    trimmed_median prices = some (listMedian (trimmedSample prices)) := by
  unfold trimmed_median
  rw [if_neg (by omega : ¬prices.length < MIN_SAMPLES)]
  cases hts : trimmedSample prices with
  | nil =>
    exact absurd hts (trimmedSample_ne_nil
      (by simp only [MIN_SAMPLES] at h; omega))
  | cons p rest => simp only [hts]

/-! ## Claim theorems -/

/-- C1: for every finite price sample, `trimmed_median` returns `none` below
the minimum sample size 3; for size in [3,6) it returns the median of the
sorted sample with no trimming; for size ≥ 6 it returns the median of the
sorted sample with `max 1 (⌊0.10·n⌋)` elements removed from each end; and if
trimming leaves nothing, the result is `none`. -/
theorem trimmed_median_branches (prices : List ℚ) :
    (prices.length < MIN_SAMPLES → trimmed_median prices = none)
    ∧ (MIN_SAMPLES ≤ prices.length → prices.length < 6 →
        trimmed_median prices = some (listMedian prices))
    ∧ (6 ≤ prices.length →
        trimmed_median prices =
          some (listMedian (trimEnds (max 1 (prices.length / 10)) (sortQ prices))))
    ∧ (trimmedSample prices = [] → trimmed_median prices = none) := by
  refine ⟨?_, ?_, ?_, ?_⟩
  · intro h
    unfold trimmed_median
    rw [if_pos h]
  · intro h h6
    rw [trimmed_median_eq_of_ge h]
    have hts : trimmedSample prices = sortQ prices := by
      unfold trimmedSample
      rw [if_neg (by rw [length_sortQ]; omega)]
    rw [hts, listMedian_sortQ]
  · intro h6
    rw [trimmed_median_eq_of_ge (by simp only [MIN_SAMPLES]; omega)]
    have hts : trimmedSample prices =
        trimEnds (max 1 (prices.length / 10)) (sortQ prices) := by
      unfold trimmedSample trimCount
      rw [if_pos (by rw [length_sortQ]; omega), length_sortQ]
    rw [hts]
  · intro hts
    unfold trimmed_median
    split
    · rfl
    · rw [hts]

/-- C1 witness: the four branches at concrete samples. -/
theorem trimmed_median_branches_witness :
    trimmed_median [1] = none
    ∧ trimmed_median [3, 1, 2] = some (listMedian [3, 1, 2])
    ∧ trimmed_median [9, 5, 4, 3, 2, 1] =
        some (listMedian (trimEnds (max 1 (6 / 10)) (sortQ [9, 5, 4, 3, 2, 1])))
    ∧ trimmed_median ([] : List ℚ) = none :=
  ⟨(trimmed_median_branches [1]).1 (by decide),
    (trimmed_median_branches [3, 1, 2]).2.1 (by decide) (by decide),
    (trimmed_median_branches [9, 5, 4, 3, 2, 1]).2.2.1 (by decide),
    (trimmed_median_branches []).2.2.2 (by decide)⟩

/-- C10: on any sample meeting the minimum size 3, `trimmed_median` returns
a value — trimming (which happens only for size ≥ 6, removing
`max 1 (⌊0.10·n⌋)` per end) never empties the sample, so the
absent-after-trimming branch is unreachable under the precondition. -/
theorem trimmed_median_total_above_min (prices : List ℚ)
    (h : MIN_SAMPLES ≤ prices.length) :
    trimmedSample prices ≠ [] ∧ ∃ v, trimmed_median prices = some v :=
  ⟨trimmedSample_ne_nil (by simp only [MIN_SAMPLES] at h; omega),
    listMedian (trimmedSample prices), trimmed_median_eq_of_ge h⟩

/-- C10 witness: a concrete minimum-size sample. -/
theorem trimmed_median_total_above_min_witness :
    trimmedSample [2, 7, 4] ≠ [] ∧ ∃ v, trimmed_median [2, 7, 4] = some v :=
  trimmed_median_total_above_min [2, 7, 4] (by decide)

end CsfloatWatcher

namespace CsfloatWatcher

/-! ### Facts about `current_bid_usd` -/

theorem posNum_some {o : Option ℚ} {v : ℚ} (h : posNum o = some v) : 0 < v := by
  unfold posNum at h
  split at h
  · split at h
    · cases h; assumption
    · cases h
  · cases h

theorem orElse_some {x y : Option ℚ} {v : ℚ} (h : (x <|> y) = some v) :
    x = some v ∨ y = some v := by
  cases x <;> simp_all

theorem firstBidValue_pos {L : Listing} {v : ℚ} (h : firstBidValue L = some v) :
    0 < v := by
  unfold firstBidValue at h
  split at h
  · rename_i v0 heq
    cases h
    rcases orElse_some heq with h1 | h1
    · exact posNum_some h1
    · rcases orElse_some h1 with h2 | h2 <;> exact posNum_some h2
  · rcases Option.bind_eq_some.1 h with ⟨a, _, ha⟩
    exact posNum_some ha

end CsfloatWatcher

namespace CsfloatWatcher

/-- C4 counterexample: the listing whose `current_bid` field holds the
positive number 40 is extracted as $40, not 40/100 dollars — the claimed
unconditional cents-to-dollars division does not happen for raw values ≤ 50. -/
theorem small_bid_not_divided :
    smallBidListing.current_bid = some 40
    ∧ current_bid_usd smallBidListing = some 40
    ∧ current_bid_usd smallBidListing ≠ some (40 / 100) := by
  have h40 : current_bid_usd smallBidListing = some 40 := by decide
  refine ⟨rfl, h40, ?_⟩
  rw [h40]
  intro h
  have h' := Option.some.inj h
  norm_num at h'

/-- C4 (amended): for a listing whose first positive numeric field among
`current_bid`, `current_price`, `price`, `auction.current_bid` is `v`, the
extracted bid is `v / 100` when `v > 50` and `v` taken as dollars otherwise. -/
theorem bid_conversion_heuristic (L : Listing) (v : ℚ)
    (h : firstBidValue L = some v) :
    0 < v ∧ current_bid_usd L = some (if 50 < v then v / 100 else v) := by
  refine ⟨firstBidValue_pos h, ?_⟩
  unfold current_bid_usd
  rw [h]
  rfl

/-- C4 witness: the heuristic at raw values 40 (kept as dollars) and 8000
(divided by 100). -/
theorem bid_conversion_heuristic_witness :
    ((0:ℚ) < 40 ∧ current_bid_usd smallBidListing =
      some (if (50:ℚ) < 40 then 40 / 100 else 40))
    ∧ ((0:ℚ) < 8000 ∧ current_bid_usd exListing =
      some (if (50:ℚ) < 8000 then 8000 / 100 else 8000)) :=
  ⟨bid_conversion_heuristic smallBidListing 40 (by decide),
    bid_conversion_heuristic exListing 8000 (by decide)⟩

end CsfloatWatcher

namespace CsfloatWatcher

/-- C7: every fetched auction is classified by computed seconds remaining —
[0,300] gives stage t5, (300,600] gives t10, anything later is discarded; an
auction with no resolvable time representation (`time_left`, an
`expires_at`/`ends_at`/`end_time` timestamp, or nested `auction.ends_at`)
yields no candidate. -/
theorem stage_window_classification (now : ℚ) (st : StateMap) (L : Listing) :
    (seconds_left now L = none → collectCandidate now st L = none)
    ∧ ((posNum L.time_left = none ∧ posNum L.expires_at = none ∧
        posNum L.ends_at = none ∧ posNum L.end_time = none ∧
        L.auction.bind (fun a => posNum a.ends_at) = none) →
        seconds_left now L = none)
    ∧ (∀ secs, seconds_left now L = some secs →
        (secs ≤ 300 → stage_needed secs = some Stage.t5)
        ∧ (300 < secs → secs ≤ 600 → stage_needed secs = some Stage.t10)
        ∧ (600 < secs →
            stage_needed secs = none ∧ collectCandidate now st L = none)) := by
  refine ⟨?_, ?_, ?_⟩
  · intro h
    unfold collectCandidate
    split
    · rfl
    · simp only [h]
  · rintro ⟨h1, h2, h3, h4, h5⟩
    unfold seconds_left
    simp only [h1, h2, h3, h4, h5]
    rfl
  · intro secs hsec
    refine ⟨?_, ?_, ?_⟩
    · intro h
      unfold stage_needed
      rw [if_pos (by omega : secs ≤ 5 * 60)]
    · intro h1 h2
      unfold stage_needed
      rw [if_neg (by omega : ¬secs ≤ 5 * 60), if_pos (by omega : secs ≤ 10 * 60)]
    · intro h
      have hst : stage_needed secs = none := by
        unfold stage_needed
        rw [if_neg (by omega : ¬secs ≤ 5 * 60), if_neg (by omega : ¬secs ≤ 10 * 60)]
      refine ⟨hst, ?_⟩
      unfold collectCandidate
      split
      · rfl
      · simp only [hsec, hst]

/-- C7 witness: a listing with no time fields is discarded; 290 s classifies
as t5, 400 s as t10, and a 700 s listing is out of window and discarded. -/
theorem stage_window_classification_witness :
    collectCandidate 0 emptyState noTimeListing = none
    ∧ seconds_left 0 noTimeListing = none
    ∧ stage_needed 290 = some Stage.t5
    ∧ stage_needed 400 = some Stage.t10
    ∧ stage_needed 700 = none
    ∧ collectCandidate 0 emptyState lateListing = none :=
  ⟨(stage_window_classification 0 emptyState noTimeListing).1 (by decide),
    (stage_window_classification 0 emptyState noTimeListing).2.1
      (by refine ⟨?_, ?_, ?_, ?_, ?_⟩ <;> decide),
    ((stage_window_classification 0 emptyState exListing).2.2 290
      (by decide)).1 (by decide),
    ((stage_window_classification 0 emptyState exListing400).2.2 400
      (by decide)).2.1 (by decide) (by decide),
    (((stage_window_classification 0 emptyState lateListing).2.2 700
      (by decide)).2.2 (by decide)).1,
    (((stage_window_classification 0 emptyState lateListing).2.2 700
      (by decide)).2.2 (by decide)).2⟩

end CsfloatWatcher

namespace CsfloatWatcher

/-- C9: load failures (missing file, unreadable file, malformed JSON) all
degrade to the empty stage map; `save_state` never surfaces an error; and
the result of a pass — in particular the notified deal list — does not
depend on whether the state write succeeds. -/
theorem persistence_error_handling :
    (load_state .missing = emptyState
      ∧ load_state .readError = emptyState
      ∧ load_state (.content none) = emptyState)
    ∧ (∀ (d : StateMap) (w : WriteOutcome), save_state d w = .ok ())
    ∧ (∀ (now : ℚ) (r : ReadOutcome) (w : WriteOutcome)
        (auctions : List Listing) (f : String → Option ℚ),
        (run_pass now r w auctions f).1 = run_once now (load_state r) auctions f
        ∧ (run_pass now r w auctions f).1.notified =
            (run_pass now r .ok auctions f).1.notified)
    ∧ (∀ (now : ℚ) (w : WriteOutcome) (auctions : List Listing)
        (f : String → Option ℚ),
        (run_pass now .readError w auctions f).1 =
          run_once now emptyState auctions f) := by
  refine ⟨⟨rfl, rfl, rfl⟩, ?_, ?_, ?_⟩
  · intro d w
    cases w <;> rfl
  · intro now r w auctions f
    exact ⟨rfl, rfl⟩
  · intro now w auctions f
    rfl

end CsfloatWatcher

namespace CsfloatWatcher

/-- C5: a candidate with resolved reference `r` yields a deal exactly when
its bid does not exceed `r * (1 - 0.12)`, with drop percentage
`(r - bid)/r * 100`; concretely, the 290-second auction with bid $80 against
reference $100 alerts at stage t5 and the state map then sends its id to t5. -/
theorem profit_filter_and_example :
    (∀ (refs : String → Option ℚ) (c : Candidate) (cs : List Candidate) (r : ℚ),
      refs c.name = some r → r ≠ 0 →
      buildDeals refs (c :: cs) =
        (if c.bid ≤ r * (1 - PROFIT_UNDER) then [mkDeal c r] else [])
          ++ buildDeals refs cs
      ∧ (mkDeal c r).drop_pct = (r - c.bid) / r * 100)
    ∧ ((run_once 0 emptyState [exListing] exOracle).notified = [exDeal]
      ∧ exDeal.stage = Stage.t5 ∧ exDeal.bid = 80 ∧ exDeal.ref = 100
      ∧ (run_once 0 emptyState [exListing] exOracle).state "X" = some Stage.t5) := by
  constructor
  · intro refs c cs r h hr0
    constructor
    · show List.filterMap _ (c :: cs) = _
      rw [List.filterMap_cons]
      simp only [h, if_neg hr0]
      by_cases hle : c.bid ≤ r * (1 - PROFIT_UNDER)
      · rw [if_neg (not_lt.2 hle), if_pos hle]
        rfl
      · rw [if_pos (lt_of_not_le hle), if_neg hle]
        rfl
    · rfl
  · refine ⟨?_, rfl, rfl, rfl, ?_⟩
    · rw [run1]
    · rw [run1]
      show updateStates emptyState [exDeal] "X" = some Stage.t5
      rw [st1_val]
      simp

/-- C5 witness: the profit filter applied to the concrete candidate. -/
theorem profit_filter_and_example_witness :
    buildDeals exOracle [exCand] =
      (if exCand.bid ≤ 100 * (1 - PROFIT_UNDER) then [mkDeal exCand 100] else [])
        ++ buildDeals exOracle []
    ∧ (mkDeal exCand 100).drop_pct = (100 - exCand.bid) / 100 * 100 :=
  profit_filter_and_example.1 exOracle exCand [] 100 (by decide) (by decide)

/-- C6: the notified deal list of any pass is sorted by minutes-remaining
ascending then drop-percentage descending and holds at most TOP_N_GLOBAL
(=10) deals; on the (5,10), (2,30), (2,20) example the ranked order is
(2,30), (2,20), (5,10). -/
theorem ranking_sorted_capped (now : ℚ) (st : StateMap)
    (auctions : List Listing) (f : String → Option ℚ) :
    List.Sorted dealLe ((run_once now st auctions f).notified)
    ∧ (run_once now st auctions f).notified.length ≤ TOP_N_GLOBAL
    ∧ capDeals (sortDeals [rankDealA, rankDealB, rankDealC]) =
        [rankDealB, rankDealC, rankDealA] := by
  refine ⟨?_, ?_, ?_⟩
  · rcases run_once_cases now st auctions f with ⟨hn, _⟩ | ⟨hn, _⟩
    · rw [hn]
      exact List.sorted_nil
    · rw [hn]
      exact capDeals_sorted (sortDeals_sorted _)
  · rcases run_once_cases now st auctions f with ⟨hn, _⟩ | ⟨hn, _⟩
    · rw [hn]
      simp [TOP_N_GLOBAL]
    · rw [hn]
      unfold keptOf
      exact capDeals_length _
  · decide

end CsfloatWatcher

namespace CsfloatWatcher

/-- C8: reference lookups are recorded only for names among the first
MAX_REF_ITEMS (=30) distinct candidate item names in encounter order, and
every notified deal's item name is among those first 30 distinct names with
a successful (truthy) reference lookup — so a candidate outside the capped
names, or with a failed lookup, yields no deal that pass. -/
theorem ref_lookup_cap :
    (∀ (f : String → Option ℚ) (names : List String) (n : String) (r : ℚ),
      buildRefs f names n = some r →
      n ∈ (distinctInOrder names).take MAX_REF_ITEMS ∧ f n = some r ∧ r ≠ 0)
    ∧ (∀ (now : ℚ) (st : StateMap) (auctions : List Listing)
        (f : String → Option ℚ) (d : Deal),
        d ∈ (run_once now st auctions f).notified →
        d.item ∈ (distinctInOrder
          ((candsOf now st auctions).map Candidate.name)).take MAX_REF_ITEMS
        ∧ ∃ r, f d.item = some r ∧ r ≠ 0 ∧ d.ref = r) := by
  constructor
  · intro f names n r h
    obtain ⟨hmem, hf, hr0⟩ := buildRefs_lookup h
    exact ⟨mem_take_distinctInOrder hmem, hf, hr0⟩
  · intro now st auctions f d hd
    obtain ⟨c, hc, r, href, hr0, _, hdm⟩ := notified_mem_inv hd
    obtain ⟨hmem, hf, _⟩ := buildRefs_lookup href
    have hitem : d.item = c.name := by rw [hdm, mkDeal_item]
    have href' : d.ref = r := by rw [hdm, mkDeal_ref]
    rw [hitem]
    exact ⟨mem_take_distinctInOrder hmem, r, hf, hr0, href'⟩

/-- C8 witness: the capped lookup on a one-name list, and the concrete
notified deal of the end-to-end run. -/
theorem ref_lookup_cap_witness :
    ("AK" ∈ (distinctInOrder ["AK"]).take MAX_REF_ITEMS
      ∧ exOracle "AK" = some 100 ∧ (100:ℚ) ≠ 0)
    ∧ (exDeal.item ∈ (distinctInOrder
        ((candsOf 0 emptyState [exListing]).map Candidate.name)).take MAX_REF_ITEMS
      ∧ ∃ r, exOracle exDeal.item = some r ∧ r ≠ 0 ∧ exDeal.ref = r) :=
  ⟨ref_lookup_cap.1 exOracle ["AK"] "AK" 100 refs_exOracle_single,
    ref_lookup_cap.2 0 emptyState [exListing] exOracle exDeal
      (by rw [run1]; exact List.mem_singleton_self _)⟩

end CsfloatWatcher

namespace CsfloatWatcher

/-- C2 counterexample: when the same listing id appears twice in one fetched
batch, a single pass notifies two deals for the same (id, stage) pair — the
at-most-once guarantee fails within a pass. -/
theorem duplicate_id_double_alert :
    (run_once 0 emptyState [exListing, exListing] exOracle).notified.map
      (fun d => (d.id, d.stage)) = [("X", Stage.t5), ("X", Stage.t5)] := by
  rw [run_dup]
  rfl

/-- C2 (amended): across passes the dedup holds — an auction whose computed
stage equals the stage already recorded for its id yields no candidate, and
every notified deal's id is recorded in the state map handed to `save_state`
before notification (at that deal's stage when the pass's notified ids are
distinct). Within a single pass, however, duplicate occurrences of one id
can each be alerted (see the counterexample). -/
theorem alert_dedup_across_passes :
    (∀ (now : ℚ) (st : StateMap) (L : Listing) (secs : ℕ) (s : Stage),
      seconds_left now L = some secs → stage_needed secs = some s →
      st (L.id.getD "") = some s → collectCandidate now st L = none)
    ∧ (∀ (now : ℚ) (st : StateMap) (auctions : List Listing)
        (f : String → Option ℚ) (d : Deal),
        d ∈ (run_once now st auctions f).notified →
        ((run_once now st auctions f).state d.id).isSome)
    ∧ (∀ (now : ℚ) (st : StateMap) (auctions : List Listing)
        (f : String → Option ℚ) (d : Deal),
        (((run_once now st auctions f).notified.map Deal.id).Nodup) →
        d ∈ (run_once now st auctions f).notified →
        (run_once now st auctions f).state d.id = some d.stage) := by
  refine ⟨?_, ?_, ?_⟩
  · intro now st L secs s h1 h2 h3
    exact collectCandidate_dedup h1 h2 h3
  · intro now st auctions f d hd
    rcases run_once_cases now st auctions f with ⟨hn, _⟩ | ⟨hn, hst⟩
    · rw [hn] at hd
      cases hd
    · rw [hn] at hd
      rw [hst]
      exact updateStates_isSome_of_mem ⟨d, hd, rfl⟩
  · intro now st auctions f d hnd hd
    rcases run_once_cases now st auctions f with ⟨hn, _⟩ | ⟨hn, hst⟩
    · rw [hn] at hd
      cases hd
    · rw [hn] at hd hnd
      rw [hst]
      exact updateStates_nodup hnd hd

/-- C2 witness: the dedup filter drops the 290-second re-observation of an
id already at t5; the concrete run records the notified deal's stage. -/
theorem alert_dedup_across_passes_witness :
    collectCandidate 0 (updateStates emptyState [exDeal]) exListing = none
    ∧ ((run_once 0 emptyState [exListing] exOracle).state exDeal.id).isSome
    ∧ (run_once 0 emptyState [exListing] exOracle).state exDeal.id =
        some exDeal.stage :=
  ⟨alert_dedup_across_passes.1 0 (updateStates emptyState [exDeal]) exListing
      290 Stage.t5 (by decide) (by decide)
      (by rw [st1_val]; simp [exListing]),
    alert_dedup_across_passes.2.1 0 emptyState [exListing] exOracle exDeal
      (by rw [run1]; exact List.mem_singleton_self _),
    alert_dedup_across_passes.2.2 0 emptyState [exListing] exOracle exDeal
      (by rw [run1]; simp)
      (by rw [run1]; exact List.mem_singleton_self _)⟩

end CsfloatWatcher

namespace CsfloatWatcher

/-- C3 counterexample: an id recorded at t5 is later overwritten with t10 —
after a pass observing id X at 290 s (stage t5), a second pass observing the
same id at 400 s re-alerts at t10 and the state map moves backward. -/
theorem stage_downgrade_on_t10_reobservation :
    run_passes emptyState [(0, [exListing], exOracle)] "X" = some Stage.t5
    ∧ run_passes emptyState
        [(0, [exListing], exOracle), (0, [exListing400], exOracle)] "X" =
        some Stage.t10 := by
  constructor
  · simp only [run_passes]
    rw [run1]
    show updateStates emptyState [exDeal] "X" = some Stage.t5
    rw [st1_val]
    simp
  · simp only [run_passes]
    rw [run1]
    show (run_once 0 (updateStates emptyState [exDeal]) [exListing400]
      exOracle).state "X" = some Stage.t10
    rw [run2]
    show updateStates (updateStates emptyState [exDeal]) [exDeal400] "X" =
      some Stage.t10
    simp [updateStates, setStage, exDeal400]

/-- C3 (amended): the stage recorded for an id moves backward from t5 to t10
only when a later pass observes a listing with that id whose computed
seconds remaining lies in (300, 600]; if no pass of a sequence ever observes
the id in that window, a recorded t5 survives the whole sequence. -/
theorem stage_monotone_conditional :
    (∀ (now : ℚ) (st : StateMap) (auctions : List Listing)
        (f : String → Option ℚ) (lid : String),
      st lid = some Stage.t5 →
      (run_once now st auctions f).state lid = some Stage.t10 →
      ∃ L ∈ auctions, L.id.getD "" = lid ∧
        ∃ secs, seconds_left now L = some secs ∧ 300 < secs ∧ secs ≤ 600)
    ∧ (∀ (lid : String)
        (passes : List (ℚ × List Listing × (String → Option ℚ)))
        (st : StateMap),
        st lid = some Stage.t5 →
        (∀ p ∈ passes, ∀ L ∈ p.2.1, L.id.getD "" = lid →
          ∀ secs, seconds_left p.1 L = some secs → ¬(300 < secs ∧ secs ≤ 600)) →
        run_passes st passes lid = some Stage.t5) := by
  constructor
  · intro now st auctions f lid h5 h10
    exact downgrade_needs_t10_window h5 h10
  · intro lid passes st h5 hobs
    exact t5_survives_passes passes st h5 hobs

/-- C3 witness: the single-pass downgrade diagnosis on the concrete
re-observation, and t5 survival across a pass observing the id at 290 s. -/
theorem stage_monotone_conditional_witness :
    (∃ L ∈ [exListing400], L.id.getD "" = "X" ∧
      ∃ secs, seconds_left 0 L = some secs ∧ 300 < secs ∧ secs ≤ 600)
    ∧ run_passes (updateStates emptyState [exDeal])
        [(0, [exListing], exOracle)] "X" = some Stage.t5 := by
  constructor
  · apply stage_monotone_conditional.1 0 (updateStates emptyState [exDeal])
      [exListing400] exOracle "X"
    · rw [st1_val]
      simp
    · rw [run2]
      show updateStates (updateStates emptyState [exDeal]) [exDeal400] "X" =
        some Stage.t10
      simp [updateStates, setStage, exDeal400]
  · apply stage_monotone_conditional.2 "X" [(0, [exListing], exOracle)]
      (updateStates emptyState [exDeal])
    · rw [st1_val]
      simp
    · intro p hp L hL hid secs hsec
      rcases List.mem_singleton.1 hp with rfl
      rcases List.mem_singleton.1 hL with rfl
      have h290 : seconds_left 0 exListing = some 290 := by decide
      rw [h290] at hsec
      have : secs = 290 := (Option.some.inj hsec).symm
      omega

end CsfloatWatcher
